import Mathlib

/-!
Shallow embedding of the caixa-simples cash-flow ledger.

The role predicate engine exists twice in the source: once as application
level booleans computed from the signed-in user's role array
(AuthProvider in src/contexts/AuthContext.tsx), and once as SQL functions
over the user_roles table (supabase migration).  Both layers are embedded
here and compared.  The transaction store operations are embedded from the
supabase edge function (db function actions) and from the client hook
useTransactions; the aggregation layer from getFilteredTransactions and
getSummary of the same hook.
-/

namespace Caixa

/-- The closed role enumeration, app_role in the migration. -/
inductive Role where
  | admin
  | view_only
  | edit
  | insert_expenses
  | insert_income
deriving DecidableEq

/-- transaction_type in the migration. -/
inductive TxType where
  | income
  | expense
deriving DecidableEq

/-- payment_method in the migration, eight values. -/
inductive PayMethod where
  | dinheiro
  | pix
  | cartao_credito
  | cartao_debito
  | boleto
  | transferencia
  | cheque
  | outro
deriving DecidableEq

/-! ### Application layer predicates

Embedded from AuthProvider: the role array of the signed-in user is a
`List Role`; `roles.includes(x)` becomes membership. -/

/-- roles.includes('admin'). -/
def isAdmin (R : List Role) : Bool := decide (Role.admin ∈ R)

/-- roles.length > 0. -/
def canView (R : List Role) : Bool := decide (R.length > 0)

/-- isAdmin or roles.includes('edit'). -/
def canEdit (R : List Role) : Bool := isAdmin R || decide (Role.edit ∈ R)

/-- isAdmin or edit or insert_expenses membership. -/
def canInsertExpense (R : List Role) : Bool :=
  isAdmin R || decide (Role.edit ∈ R) || decide (Role.insert_expenses ∈ R)

/-- isAdmin or edit or insert_income membership. -/
def canInsertIncome (R : List Role) : Bool :=
  isAdmin R || decide (Role.edit ∈ R) || decide (Role.insert_income ∈ R)

/-- same disjunction as canEdit in the source. -/
def canDelete (R : List Role) : Bool := isAdmin R || decide (Role.edit ∈ R)

/-! ### Database layer

The SQL functions range over the user_roles table; a row is embedded with
its primary key because the Users page mutates rows by that key. -/

/-- One row of public.user_roles. -/
structure RoleRow where
  id : String
  user_id : String
  role : Role
deriving DecidableEq

/-- SQL: role IN (list). -/
def roleIn (r : Role) (rs : List Role) : Bool := decide (r ∈ rs)

/-- public.can_view: EXISTS a row of the user with role among all five. -/
def can_view (tbl : List RoleRow) (u : String) : Bool :=
  tbl.any (fun row => decide (row.user_id = u) &&
    roleIn row.role [Role.admin, Role.view_only, Role.edit, Role.insert_expenses, Role.insert_income])

/-- public.can_edit: EXISTS a row of the user with role admin or edit. -/
def can_edit (tbl : List RoleRow) (u : String) : Bool :=
  tbl.any (fun row => decide (row.user_id = u) && roleIn row.role [Role.admin, Role.edit])

/-- public.can_delete: same SQL body as can_edit. -/
def can_delete (tbl : List RoleRow) (u : String) : Bool :=
  tbl.any (fun row => decide (row.user_id = u) && roleIn row.role [Role.admin, Role.edit])

/-- public.can_insert_expense. -/
def can_insert_expense (tbl : List RoleRow) (u : String) : Bool :=
  tbl.any (fun row => decide (row.user_id = u) &&
    roleIn row.role [Role.admin, Role.edit, Role.insert_expenses])

/-- public.can_insert_income. -/
def can_insert_income (tbl : List RoleRow) (u : String) : Bool :=
  tbl.any (fun row => decide (row.user_id = u) &&
    roleIn row.role [Role.admin, Role.edit, Role.insert_income])

/-- public.has_role. -/
def has_role (tbl : List RoleRow) (u : String) (r : Role) : Bool :=
  tbl.any (fun row => decide (row.user_id = u) && decide (row.role = r))

/-- The role set of a user as read from the table (what the client fetches
from user_roles and stores in its roles array). -/
def rolesOf (tbl : List RoleRow) (u : String) : List Role :=
  (tbl.filter (fun row => decide (row.user_id = u))).map RoleRow.role

theorem roleIn_univ (r : Role) :
    roleIn r [Role.admin, Role.view_only, Role.edit, Role.insert_expenses, Role.insert_income] = true := by
  cases r <;> rfl

theorem any_eq_rolesOf_any (tbl : List RoleRow) (u : String) (rs : List Role) :
    tbl.any (fun row => decide (row.user_id = u) && roleIn row.role rs) =
      (rolesOf tbl u).any (fun r => roleIn r rs) := by
  induction tbl with
  | nil => rfl
  | cons row rest ih =>
      simp only [rolesOf] at ih ⊢
      by_cases h : row.user_id = u
      · simp [h, List.any_cons, List.filter_cons, ih]
      · simp [h, List.any_cons, List.filter_cons, ih]

theorem rolesOf_any_mem (R : List Role) (rs : List Role) :
    R.any (fun r => roleIn r rs) = decide (∃ r ∈ R, r ∈ rs) := by
  induction R with
  | nil => simp
  | cons r rest ih =>
      simp only [roleIn] at ih ⊢
      simp [List.any_cons, ih]

theorem any_roleIn_univ (L : List Role) :
    (L.any fun r =>
      roleIn r [Role.admin, Role.view_only, Role.edit, Role.insert_expenses, Role.insert_income]) =
      decide (L.length > 0) := by
  cases L with
  | nil => rfl
  | cons r t => simp [List.any_cons, roleIn_univ r]

theorem exists_mem_pair (R : List Role) (a b : Role) :
    (∃ r ∈ R, r ∈ [a, b]) ↔ a ∈ R ∨ b ∈ R := by
  constructor
  · rintro ⟨r, hrR, hr⟩
    simp only [List.mem_cons, List.mem_singleton, List.not_mem_nil, or_false] at hr
    rcases hr with rfl | rfl
    · exact Or.inl hrR
    · exact Or.inr hrR
  · rintro (h | h)
    · exact ⟨a, h, by simp⟩
    · exact ⟨b, h, by simp⟩

theorem exists_mem_triple (R : List Role) (a b c : Role) :
    (∃ r ∈ R, r ∈ [a, b, c]) ↔ a ∈ R ∨ b ∈ R ∨ c ∈ R := by
  constructor
  · rintro ⟨r, hrR, hr⟩
    simp only [List.mem_cons, List.mem_singleton, List.not_mem_nil, or_false] at hr
    rcases hr with rfl | rfl | rfl
    · exact Or.inl hrR
    · exact Or.inr (Or.inl hrR)
    · exact Or.inr (Or.inr hrR)
  · rintro (h | h | h)
    · exact ⟨a, h, by simp⟩
    · exact ⟨b, h, by simp⟩
    · exact ⟨c, h, by simp⟩

theorem can_view_eq (tbl : List RoleRow) (u : String) :
    can_view tbl u = canView (rolesOf tbl u) := by
  rw [can_view, any_eq_rolesOf_any, any_roleIn_univ, canView]

theorem can_edit_eq (tbl : List RoleRow) (u : String) :
    can_edit tbl u = canEdit (rolesOf tbl u) := by
  rw [can_edit, any_eq_rolesOf_any, rolesOf_any_mem, canEdit, isAdmin, ← Bool.decide_or,
    decide_eq_decide]
  exact exists_mem_pair _ _ _

theorem can_delete_eq (tbl : List RoleRow) (u : String) :
    can_delete tbl u = canDelete (rolesOf tbl u) := by
  rw [can_delete, any_eq_rolesOf_any, rolesOf_any_mem, canDelete, isAdmin, ← Bool.decide_or,
    decide_eq_decide]
  exact exists_mem_pair _ _ _

theorem can_insert_expense_eq (tbl : List RoleRow) (u : String) :
    can_insert_expense tbl u = canInsertExpense (rolesOf tbl u) := by
  rw [can_insert_expense, any_eq_rolesOf_any, rolesOf_any_mem, canInsertExpense, isAdmin,
    ← Bool.decide_or, ← Bool.decide_or, decide_eq_decide]
  exact (exists_mem_triple _ _ _ _).trans or_assoc.symm

theorem can_insert_income_eq (tbl : List RoleRow) (u : String) :
    can_insert_income tbl u = canInsertIncome (rolesOf tbl u) := by
  rw [can_insert_income, any_eq_rolesOf_any, rolesOf_any_mem, canInsertIncome, isAdmin,
    ← Bool.decide_or, ← Bool.decide_or, decide_eq_decide]
  exact (exists_mem_triple _ _ _ _).trans or_assoc.symm

theorem has_role_admin_eq (tbl : List RoleRow) (u : String) :
    has_role tbl u Role.admin = isAdmin (rolesOf tbl u) := by
  have hfun : (fun row : RoleRow => decide (row.user_id = u) && decide (row.role = Role.admin)) =
      (fun row : RoleRow => decide (row.user_id = u) && roleIn row.role [Role.admin]) := by
    funext row
    simp [roleIn]
  rw [has_role, hfun, any_eq_rolesOf_any, rolesOf_any_mem, isAdmin, decide_eq_decide]
  simp

/-- C1: for every user_roles table and user, the six database-layer SQL
functions agree with the six application-layer predicates evaluated on the
role set the client reads from the same table, and on every role set the
predicates match the spec table: canView iff non-empty, canEdit = canDelete
iff admin or edit present, canInsertExpense adds insert_expenses,
canInsertIncome adds insert_income, isAdmin iff admin present. -/
theorem claim_C1_dual_layer_role_predicates (tbl : List RoleRow) (u : String) :
    (can_view tbl u = canView (rolesOf tbl u) ∧
     can_edit tbl u = canEdit (rolesOf tbl u) ∧
     can_delete tbl u = canDelete (rolesOf tbl u) ∧
     can_insert_expense tbl u = canInsertExpense (rolesOf tbl u) ∧
     can_insert_income tbl u = canInsertIncome (rolesOf tbl u) ∧
     has_role tbl u Role.admin = isAdmin (rolesOf tbl u)) ∧
    (∀ R : List Role,
      (canView R = true ↔ R ≠ []) ∧
      (canEdit R = true ↔ (Role.admin ∈ R ∨ Role.edit ∈ R)) ∧
      canDelete R = canEdit R ∧
      (canInsertExpense R = true ↔
        (Role.admin ∈ R ∨ Role.edit ∈ R ∨ Role.insert_expenses ∈ R)) ∧
      (canInsertIncome R = true ↔
        (Role.admin ∈ R ∨ Role.edit ∈ R ∨ Role.insert_income ∈ R)) ∧
      (isAdmin R = true ↔ Role.admin ∈ R)) := by
  refine ⟨⟨can_view_eq tbl u, can_edit_eq tbl u, can_delete_eq tbl u,
    can_insert_expense_eq tbl u, can_insert_income_eq tbl u, has_role_admin_eq tbl u⟩,
    fun R => ⟨?_, ?_, rfl, ?_, ?_, ?_⟩⟩
  · simp [canView, List.length_pos]
  · simp [canEdit, isAdmin]
  · simp [canInsertExpense, isAdmin, or_assoc]
  · simp [canInsertIncome, isAdmin, or_assoc]
  · simp [isAdmin]

/-! ### Transaction store -/

/-- One row of public.transactions.  Dates and timestamps are embedded as
integers (epoch instants), amounts as rationals. -/
structure Tx where
  id : String
  user_id : String
  date : Int
  type : TxType
  client_supplier : String
  amount : ℚ
  description : String
  payment_method : PayMethod
  created_at : Int
  updated_at : Int
deriving DecidableEq

/-- Outcome of an insert attempt through row-level security. -/
inductive InsertOutcome where
  | ok
  | unauthorized
deriving DecidableEq

/-- Embedded from the INSERT policy on public.transactions:
WITH CHECK ((type = income AND can_insert_income(uid)) OR
(type = expense AND can_insert_expense(uid))).  On failure the row is not
inserted and the store is returned unchanged. -/
def insertTxRLS (tbl : List RoleRow) (uid : String) (store : List Tx) (c : Tx) :
    List Tx × InsertOutcome :=
  if (c.type = TxType.income ∧ can_insert_income tbl uid = true) ∨
     (c.type = TxType.expense ∧ can_insert_expense tbl uid = true) then
    (store ++ [c], InsertOutcome.ok)
  else
    (store, InsertOutcome.unauthorized)

/-- C2: with role set exactly insert_income, inserting an expense is
rejected as unauthorized and the store is unchanged; in general an income
insert succeeds exactly when canInsertIncome holds of the acting
user's role set and an expense insert exactly when canInsertExpense
holds. -/
theorem claim_C2_insert_direction_gate (tbl : List RoleRow) (uid : String)
    (store : List Tx) (c : Tx) :
    (rolesOf tbl uid = [Role.insert_income] → c.type = TxType.expense →
      insertTxRLS tbl uid store c = (store, InsertOutcome.unauthorized)) ∧
    (c.type = TxType.income →
      ((insertTxRLS tbl uid store c).2 = InsertOutcome.ok ↔
        canInsertIncome (rolesOf tbl uid) = true)) ∧
    (c.type = TxType.expense →
      ((insertTxRLS tbl uid store c).2 = InsertOutcome.ok ↔
        canInsertExpense (rolesOf tbl uid) = true)) := by
  refine ⟨?_, ?_, ?_⟩
  · intro hroles htype
    have hexp : can_insert_expense tbl uid = false := by
      rw [can_insert_expense_eq, hroles]
      rfl
    rw [insertTxRLS, if_neg]
    rintro (⟨hty, _⟩ | ⟨_, hins⟩)
    · rw [htype] at hty
      exact TxType.noConfusion hty
    · rw [hexp] at hins
      exact Bool.false_ne_true hins
  · intro htype
    rw [insertTxRLS, ← can_insert_income_eq]
    by_cases h : can_insert_income tbl uid = true
    · rw [if_pos (Or.inl ⟨htype, h⟩)]
      simp [h]
    · rw [if_neg]
      · simp [h]
      · rintro (⟨_, hins⟩ | ⟨hty, _⟩)
        · exact h hins
        · rw [htype] at hty
          exact TxType.noConfusion hty
  · intro htype
    rw [insertTxRLS, ← can_insert_expense_eq]
    by_cases h : can_insert_expense tbl uid = true
    · rw [if_pos (Or.inr ⟨htype, h⟩)]
      simp [h]
    · rw [if_neg]
      · simp [h]
      · rintro (⟨hty, _⟩ | ⟨_, hins⟩)
        · rw [htype] at hty
          exact TxType.noConfusion hty
        · exact h hins

/-- A concrete expense candidate used in witnesses and counterexamples. -/
def sampleExpense : Tx :=
  { id := "t1"
    user_id := "u1"
    date := 20
    type := TxType.expense
    client_supplier := "Fornecedor A"
    amount := 50
    description := "compra"
    payment_method := PayMethod.pix
    created_at := 100
    updated_at := 100 }

/-- Witness for C2: a user holding only insert_income cannot insert a
50-unit expense; the store stays empty. -/
theorem claim_C2_witness :
    insertTxRLS [⟨"r1", "u1", Role.insert_income⟩] "u1" [] sampleExpense =
      ([], InsertOutcome.unauthorized) :=
  (claim_C2_insert_direction_gate [⟨"r1", "u1", Role.insert_income⟩] "u1" [] sampleExpense).1
    (by decide) rfl

/-! ### Bootstrap rule -/

/-- Embedded from public.handle_new_user: on a new registration, count the
rows of user_roles; zero means the newcomer gets admin, otherwise
view_only; exactly one row is inserted. -/
def handleNewUserStep (rows : List (String × Role)) (u : String) : List (String × Role) :=
  rows ++ [(u, if rows.length = 0 then Role.admin else Role.view_only)]

/-- Registrations processed in order by the trigger, starting from an empty
user_roles table. -/
def registerAllTrigger (us : List String) : List (String × Role) :=
  us.foldl handleNewUserStep []

/-- State of the edge-function signup: the users table and the user_roles
table. -/
structure SignupState where
  users : List String
  user_roles : List (String × Role)
deriving DecidableEq

/-- Embedded from the signup action of the db edge function: insert the
user, count the users table (the new row included), and insert admin when
the count is one, view_only otherwise. -/
def signupStep (s : SignupState) (u : String) : SignupState :=
  let users' := s.users ++ [u]
  let role := if users'.length = 1 then Role.admin else Role.view_only
  { users := users', user_roles := s.user_roles ++ [(u, role)] }

/-- Registrations processed in order by the edge function, starting from
empty tables. -/
def registerAllEdge (us : List String) : SignupState :=
  us.foldl signupStep ⟨[], []⟩

/-- The role table both implementations should produce: first user admin,
all later users view_only. -/
def expectedRoles : List String → List (String × Role)
  | [] => []
  | u :: rest => (u, Role.admin) :: rest.map (fun v => (v, Role.view_only))

/-- Number of admin assignments in a role table. -/
def adminCount (rows : List (String × Role)) : Nat :=
  (rows.filter (fun p => decide (p.2 = Role.admin))).length

theorem trigger_foldl_nonempty (us : List String) (rows : List (String × Role))
    (h : rows ≠ []) :
    us.foldl handleNewUserStep rows = rows ++ us.map (fun v => (v, Role.view_only)) := by
  induction us generalizing rows with
  | nil => simp
  | cons u rest ih =>
      have hlen : rows.length ≠ 0 := fun hc => h (List.length_eq_zero.mp hc)
      have hstep : handleNewUserStep rows u = rows ++ [(u, Role.view_only)] := by
        rw [handleNewUserStep, if_neg hlen]
      rw [List.foldl_cons, hstep, ih (rows ++ [(u, Role.view_only)]) (by simp)]
      simp

theorem edge_foldl_nonempty (us : List String) (s : SignupState)
    (h : s.users ≠ []) :
    (us.foldl signupStep s).user_roles =
      s.user_roles ++ us.map (fun v => (v, Role.view_only)) := by
  induction us generalizing s with
  | nil => simp
  | cons u rest ih =>
      have hlen : (s.users ++ [u]).length ≠ 1 := by
        have : s.users.length ≠ 0 := fun hc => h (List.length_eq_zero.mp hc)
        simp only [List.length_append, List.length_singleton]
        omega
      have hstep : signupStep s u =
          ⟨s.users ++ [u], s.user_roles ++ [(u, Role.view_only)]⟩ := by
        rw [signupStep]
        simp only [if_neg hlen]
      rw [List.foldl_cons, hstep, ih ⟨s.users ++ [u], s.user_roles ++ [(u, Role.view_only)]⟩
        (by simp)]
      simp

/-- C3: both registration paths (the database trigger counting user_roles
and the edge-function signup counting users) give the first registered user
admin and every later one view_only; each registration adds exactly one
role row, and at most one admin ever arises from the bootstrap rule. -/
theorem claim_C3_bootstrap_first_admin (us : List String) :
    registerAllTrigger us = expectedRoles us ∧
    (registerAllEdge us).user_roles = expectedRoles us ∧
    (registerAllTrigger us).length = us.length ∧
    adminCount (registerAllTrigger us) ≤ 1 := by
  have htrig : registerAllTrigger us = expectedRoles us := by
    cases us with
    | nil => rfl
    | cons u rest =>
        rw [registerAllTrigger, List.foldl_cons,
          show handleNewUserStep [] u = [(u, Role.admin)] from rfl,
          trigger_foldl_nonempty rest [(u, Role.admin)] (by simp), expectedRoles]
        simp
  have hedge : (registerAllEdge us).user_roles = expectedRoles us := by
    cases us with
    | nil => rfl
    | cons u rest =>
        rw [registerAllEdge, List.foldl_cons,
          show signupStep ⟨[], []⟩ u = ⟨[u], [(u, Role.admin)]⟩ from rfl,
          edge_foldl_nonempty rest ⟨[u], [(u, Role.admin)]⟩ (by simp), expectedRoles]
        simp
  refine ⟨htrig, hedge, ?_, ?_⟩
  · rw [htrig]
    cases us with
    | nil => rfl
    | cons u rest => simp [expectedRoles]
  · rw [htrig]
    cases us with
    | nil => simp [expectedRoles, adminCount]
    | cons u rest =>
        simp only [expectedRoles, adminCount, List.filter_cons]
        have hmapfilter :
            (rest.map (fun v => (v, Role.view_only))).filter
              (fun p => decide (p.2 = Role.admin)) = [] := by
          induction rest with
          | nil => rfl
          | cons v tail ihtail => simp [List.filter_cons, ihtail]
        simp [hmapfilter]

/-! ### Role mutation -/

/-- Embedded from the updateUserRole action of the db edge function:
DELETE FROM user_roles WHERE user_id = u, then INSERT one new row for u
with the new role (newId stands for the generated primary key). -/
def updateUserRoleAction (tbl : List RoleRow) (u : String) (r : Role) (newId : String) :
    List RoleRow :=
  (tbl.filter (fun row => decide (row.user_id ≠ u))) ++ [⟨newId, u, r⟩]

/-- Embedded from handleRoleChange of the Users page: UPDATE user_roles
SET role = newRole WHERE id = roleId — an update in place of one row
selected by its primary key. -/
def handleRoleChange (tbl : List RoleRow) (roleId : String) (newRole : Role) :
    List RoleRow :=
  tbl.map (fun row => if row.id = roleId then ⟨row.id, row.user_id, newRole⟩ else row)

/-- The active role rows of one user. -/
def rowsOfUser (tbl : List RoleRow) (u : String) : List RoleRow :=
  tbl.filter (fun row => decide (row.user_id = u))

/-- Counterexample to C4: the Users page path changes a role by updating
the selected row in place; on a table where the target user holds two role
rows it leaves two active rows (the stale edit row survives), so the claim
that every setRole path is a delete-then-insert producing exactly one row
is false of the code. -/
theorem claim_C4_counterexample :
    handleRoleChange [⟨"r1", "u1", Role.view_only⟩, ⟨"r2", "u1", Role.edit⟩] "r1" Role.admin =
      [⟨"r1", "u1", Role.admin⟩, ⟨"r2", "u1", Role.edit⟩] ∧
    (rowsOfUser
      (handleRoleChange [⟨"r1", "u1", Role.view_only⟩, ⟨"r2", "u1", Role.edit⟩] "r1" Role.admin)
      "u1").length = 2 := by
  constructor <;> rfl

/-- C4 as amended: the edge-function updateUserRole action is a
delete-then-insert that leaves the target user with exactly one role row
and the rows of every other user untouched; the Users page handleRoleChange
is instead an update in place that keeps the table length and every row
whose key differs from the selected one. -/
theorem claim_C4_set_role_replaces (tbl : List RoleRow) (u : String) (r : Role)
    (newId : String) :
    rowsOfUser (updateUserRoleAction tbl u r newId) u = [⟨newId, u, r⟩] ∧
    (∀ v, v ≠ u → rowsOfUser (updateUserRoleAction tbl u r newId) v = rowsOfUser tbl v) ∧
    (∀ roleId newRole, (handleRoleChange tbl roleId newRole).length = tbl.length) ∧
    (∀ roleId newRole, ∀ row ∈ tbl, row.id ≠ roleId →
      row ∈ handleRoleChange tbl roleId newRole) := by
  refine ⟨?_, ?_, ?_, ?_⟩
  · rw [rowsOfUser, updateUserRoleAction, List.filter_append]
    have h1 : (tbl.filter (fun row => decide (row.user_id ≠ u))).filter
        (fun row => decide (row.user_id = u)) = [] := by
      induction tbl with
      | nil => rfl
      | cons row rest ih =>
          by_cases h : row.user_id = u
          · simp [List.filter_cons, h, ih]
          · simp [List.filter_cons, h, ih]
    rw [h1]
    simp
  · intro v hv
    rw [rowsOfUser, updateUserRoleAction, List.filter_append, rowsOfUser]
    have h2 : ([⟨newId, u, r⟩] : List RoleRow).filter (fun row => decide (row.user_id = v)) =
        [] := by
      simp [List.filter_cons]
      exact fun hc => hv hc.symm
    rw [h2, List.append_nil]
    have h3 : ∀ rows : List RoleRow,
        (rows.filter (fun row => decide (row.user_id ≠ u))).filter
          (fun row => decide (row.user_id = v)) =
        rows.filter (fun row => decide (row.user_id = v)) := by
      intro rows
      induction rows with
      | nil => rfl
      | cons row rest ih =>
          by_cases hu : row.user_id = u
          · have hq : ¬row.user_id = v := by
              rw [hu]
              exact fun hc => hv hc.symm
            rw [List.filter_cons, List.filter_cons, if_neg (by simp [hu]),
              if_neg (by simp [hq]), ih]
          · rw [List.filter_cons, if_pos (by simp [hu]), List.filter_cons, List.filter_cons]
            by_cases hq : row.user_id = v
            · rw [if_pos (by simp [hq]), if_pos (by simp [hq]), ih]
            · rw [if_neg (by simp [hq]), if_neg (by simp [hq]), ih]
    exact h3 tbl
  · intro roleId newRole
    rw [handleRoleChange, List.length_map]
  · intro roleId newRole row hrow hne
    rw [handleRoleChange]
    have : (if row.id = roleId then (⟨row.id, row.user_id, newRole⟩ : RoleRow) else row) =
        row := if_neg hne
    rw [← this]
    exact List.mem_map_of_mem _ hrow

/-- Witness for C4: on a two-user table the edge-function action gives the
target exactly one row and leaves the other user's row alone. -/
theorem claim_C4_witness :
    rowsOfUser
        (updateUserRoleAction [⟨"r1", "u1", Role.view_only⟩, ⟨"r2", "u2", Role.edit⟩]
          "u1" Role.edit "r9") "u1" = [⟨"r9", "u1", Role.edit⟩] ∧
    rowsOfUser
        (updateUserRoleAction [⟨"r1", "u1", Role.view_only⟩, ⟨"r2", "u2", Role.edit⟩]
          "u1" Role.edit "r9") "u2" =
      rowsOfUser [⟨"r1", "u1", Role.view_only⟩, ⟨"r2", "u2", Role.edit⟩] "u2" := by
  have h := claim_C4_set_role_replaces
    [⟨"r1", "u1", Role.view_only⟩, ⟨"r2", "u2", Role.edit⟩] "u1" Role.edit "r9"
  exact ⟨h.1, h.2.1 "u2" (by decide)⟩

/-! ### Listing transactions -/

/-- The SQL ordering ORDER BY date DESC, created_at DESC as a total
boolean relation: a comes no later than b in the output. -/
def dateCreatedGe (a b : Tx) : Bool :=
  decide (b.date < a.date) || (decide (a.date = b.date) && decide (b.created_at ≤ a.created_at))

theorem dateCreatedGe_total (a b : Tx) : dateCreatedGe a b || dateCreatedGe b a := by
  simp only [dateCreatedGe, Bool.or_eq_true, Bool.and_eq_true, decide_eq_true_eq]
  omega

theorem dateCreatedGe_trans (a b c : Tx) :
    dateCreatedGe a b → dateCreatedGe b c → dateCreatedGe a c := by
  simp only [dateCreatedGe, Bool.or_eq_true, Bool.and_eq_true, decide_eq_true_eq]
  omega

/-- Embedded from the getTransactions action of the db edge function:
SELECT * FROM transactions WHERE user_id = userId
ORDER BY date DESC, created_at DESC. -/
def getTransactionsAction (store : List Tx) (uid : String) : List Tx :=
  (store.filter (fun t => decide (t.user_id = uid))).mergeSort dateCreatedGe

/-- A transaction owned by another user, used to refute the shared-ledger
reading of the list operation. -/
def otherUsersTx : Tx :=
  { id := "t2"
    user_id := "uB"
    date := 30
    type := TxType.income
    client_supplier := "Cliente B"
    amount := 100
    description := "venda"
    payment_method := PayMethod.dinheiro
    created_at := 200
    updated_at := 200 }

/-- Counterexample to C5: an admin (canView holds) lists transactions while
the store holds one transaction owned by another user; the edge-function
list filters WHERE user_id = acting user and returns nothing, so the claim
that list returns all transactions regardless of owner is false of this
code path. -/
theorem claim_C5_counterexample :
    canView (rolesOf [⟨"r1", "uA", Role.admin⟩] "uA") = true ∧
    otherUsersTx ∈ [otherUsersTx] ∧
    otherUsersTx.user_id ≠ "uA" ∧
    otherUsersTx ∉ getTransactionsAction [otherUsersTx] "uA" := by
  refine ⟨by decide, by simp, by decide, ?_⟩
  have hfilter : ([otherUsersTx].filter (fun t => decide (t.user_id = "uA"))) = [] := by
    decide
  rw [getTransactionsAction, hfilter, List.mergeSort_nil]
  simp

/-- C5 as amended: for every store and acting user, the edge-function list
returns exactly the stored transactions owned by that user — a per-user
view, not the whole shared ledger — ordered by date descending with ties
broken by created_at descending. -/
theorem claim_C5_list_own_sorted (store : List Tx) (uid : String) :
    (∀ t, t ∈ getTransactionsAction store uid ↔ (t ∈ store ∧ t.user_id = uid)) ∧
    (getTransactionsAction store uid).Pairwise (fun a b => dateCreatedGe a b = true) := by
  constructor
  · intro t
    rw [getTransactionsAction, List.mem_mergeSort, List.mem_filter, decide_eq_true_eq]
  · exact List.sorted_mergeSort dateCreatedGe_trans dateCreatedGe_total _

/-! ### Deleting transactions -/

/-- The outcomes a delete could report; the spec expects notFound on a
missing id. -/
inductive DeleteOutcome where
  | success
  | notFound
deriving DecidableEq

/-- Embedded from the deleteTransaction action of the db edge function:
DELETE FROM transactions WHERE id = id, then unconditionally report
success: true; the number of rows affected is never consulted. -/
def deleteTransactionAction (store : List Tx) (tid : String) : List Tx × DeleteOutcome :=
  (store.filter (fun t => decide (t.id ≠ tid)), DeleteOutcome.success)

/-- Counterexample to C6: deleting an id that no stored transaction has
reports success, not notFound (the store is left unchanged). -/
theorem claim_C6_counterexample :
    deleteTransactionAction [] "missing" = ([], DeleteOutcome.success) ∧
    (deleteTransactionAction [] "missing").2 ≠ DeleteOutcome.notFound := by
  constructor <;> decide

/-- C6 as amended: deleting a nonexistent or already-deleted id is
idempotent-silent — the operation reports success and the store is
unchanged; no notFound is ever reported. -/
theorem claim_C6_delete_missing_silent (store : List Tx) (tid : String)
    (h : ∀ t ∈ store, t.id ≠ tid) :
    deleteTransactionAction store tid = (store, DeleteOutcome.success) := by
  rw [deleteTransactionAction]
  have : store.filter (fun t => decide (t.id ≠ tid)) = store := by
    induction store with
    | nil => rfl
    | cons t rest ih =>
        rw [List.filter_cons, if_pos (by simp [h t (List.mem_cons_self t rest)])]
        rw [ih (fun x hx => h x (List.mem_cons_of_mem t hx))]
  rw [this]

/-- Witness for C6: deleting from a one-element store with a fresh id keeps
the store and reports success. -/
theorem claim_C6_witness :
    deleteTransactionAction [sampleExpense] "missing" =
      ([sampleExpense], DeleteOutcome.success) :=
  claim_C6_delete_missing_silent [sampleExpense] "missing" (by decide)

/-! ### Updating transactions -/

/-- The partial update payload of the updateTransaction action: a SET
clause is added exactly for the keys that are defined. -/
structure TxChanges where
  date : Option Int := none
  type : Option TxType := none
  client_supplier : Option String := none
  amount : Option ℚ := none
  description : Option String := none
  payment_method : Option PayMethod := none
deriving DecidableEq

/-- Embedded from the updateTransaction action of the db edge function:
each defined key overwrites the column, updated_at = NOW(); there is no
validation of any value (and the transactions table carries no CHECK on
amount). -/
def applyChanges (t : Tx) (c : TxChanges) (now : Int) : Tx :=
  { t with
    date := c.date.getD t.date
    type := c.type.getD t.type
    client_supplier := c.client_supplier.getD t.client_supplier
    amount := c.amount.getD t.amount
    description := c.description.getD t.description
    payment_method := c.payment_method.getD t.payment_method
    updated_at := now }

/-- UPDATE transactions SET ... WHERE id = tid over the whole store. -/
def updateTransactionAction (store : List Tx) (tid : String) (c : TxChanges) (now : Int) :
    List Tx :=
  store.map (fun t => if t.id = tid then applyChanges t c now else t)

/-- Counterexample to C7: updating the sample transaction's amount to −5
succeeds and stores −5; the store changes and no validation error exists on
this code path. -/
theorem claim_C7_counterexample :
    (updateTransactionAction [sampleExpense] "t1" { amount := some (-5) } 999).map Tx.amount =
      [-5] ∧
    updateTransactionAction [sampleExpense] "t1" { amount := some (-5) } 999 ≠
      [sampleExpense] := by
  constructor <;> decide

/-- C7 as amended: an update whose payload carries amount a with a ≤ 0 is
applied verbatim — every stored transaction with the targeted id ends up
with amount a and updated_at refreshed; the amount > 0 invariant is not
enforced by update. -/
theorem claim_C7_update_accepts_nonpositive (store : List Tx) (tid : String)
    (c : TxChanges) (now : Int) (a : ℚ) (hc : c.amount = some a) (_hle : a ≤ 0) :
    ∀ t ∈ store, t.id = tid →
      applyChanges t c now ∈ updateTransactionAction store tid c now ∧
      (applyChanges t c now).amount = a ∧ (applyChanges t c now).updated_at = now := by
  intro t ht htid
  refine ⟨?_, ?_, rfl⟩
  · rw [updateTransactionAction]
    have himg : (if t.id = tid then applyChanges t c now else t) = applyChanges t c now :=
      if_pos htid
    rw [← himg]
    exact List.mem_map_of_mem _ ht
  · rw [applyChanges]
    simp [hc]

/-- Witness for C7: the −5 update applied to the sample store. -/
theorem claim_C7_witness :
    applyChanges sampleExpense { amount := some (-5) } 999 ∈
      updateTransactionAction [sampleExpense] "t1" { amount := some (-5) } 999 ∧
    (applyChanges sampleExpense { amount := some (-5) } 999).amount = -5 ∧
    (applyChanges sampleExpense { amount := some (-5) } 999).updated_at = 999 :=
  claim_C7_update_accepts_nonpositive [sampleExpense] "t1" { amount := some (-5) } 999 (-5)
    rfl (by norm_num) sampleExpense (by simp) rfl

/-! ### Aggregation: summary -/

/-- The record returned by getSummary. -/
structure Summary where
  income : ℚ
  expense : ℚ
  balance : ℚ
deriving DecidableEq

/-- Embedded from getSummary of the useTransactions hook: filter by type,
reduce with (sum, t) => sum + t.amount starting from 0, balance is the
difference. -/
def getSummary (ts : List Tx) : Summary :=
  let income := (ts.filter (fun t => decide (t.type = TxType.income))).foldl
    (fun sum t => sum + t.amount) 0
  let expense := (ts.filter (fun t => decide (t.type = TxType.expense))).foldl
    (fun sum t => sum + t.amount) 0
  { income := income, expense := expense, balance := income - expense }

theorem foldl_add_amount (l : List Tx) (a : ℚ) :
    l.foldl (fun sum t => sum + t.amount) a = a + (l.map Tx.amount).sum := by
  induction l generalizing a with
  | nil => simp
  | cons t rest ih =>
      rw [List.foldl_cons, ih, List.map_cons, List.sum_cons]
      ring

/-- C8: getSummary sums the amounts of the income entries into income, the
expense entries into expense, and sets balance to their difference; the
empty list gives the all-zero summary, and the summary is invariant under
any permutation of the input. -/
theorem claim_C8_summary_fold (ts : List Tx) :
    ((getSummary ts).income =
      ((ts.filter (fun t => decide (t.type = TxType.income))).map Tx.amount).sum ∧
     (getSummary ts).expense =
      ((ts.filter (fun t => decide (t.type = TxType.expense))).map Tx.amount).sum ∧
     (getSummary ts).balance = (getSummary ts).income - (getSummary ts).expense) ∧
    getSummary [] = ⟨0, 0, 0⟩ ∧
    (∀ ts₂ : List Tx, ts.Perm ts₂ → getSummary ts = getSummary ts₂) := by
  refine ⟨⟨?_, ?_, rfl⟩, by simp [getSummary], ?_⟩
  · rw [getSummary]
    simp only [foldl_add_amount, zero_add]
  · rw [getSummary]
    simp only [foldl_add_amount, zero_add]
  · intro ts₂ hperm
    have hsum : ∀ p : Tx → Bool,
        ((ts.filter p).map Tx.amount).sum = ((ts₂.filter p).map Tx.amount).sum :=
      fun p => ((hperm.filter p).map Tx.amount).sum_eq
    rw [getSummary, getSummary]
    simp only [foldl_add_amount, zero_add, hsum]

/-- Witness for C8: swapping a two-element ledger leaves the summary
unchanged (the permutation hypothesis is discharged by an explicit swap). -/
theorem claim_C8_witness :
    getSummary [sampleExpense, otherUsersTx] = getSummary [otherUsersTx, sampleExpense] :=
  (claim_C8_summary_fold [sampleExpense, otherUsersTx]).2.2 [otherUsersTx, sampleExpense]
    (List.Perm.swap otherUsersTx sampleExpense [])

/-! ### Aggregation: filtering -/

/-- Lowercased character list of a string, the embedding of
toLowerCase(). -/
def lowerChars (s : String) : List Char := s.toList.map Char.toLower

/-- needle is an initial segment of hay. -/
def prefOf : List Char → List Char → Bool
  | [], _ => true
  | _ :: _, [] => false
  | a :: as, b :: bs => decide (a = b) && prefOf as bs

/-- needle occurs contiguously inside hay, the embedding of
String.prototype.includes. -/
def containsSub : List Char → List Char → Bool
  | [], needle => needle.isEmpty
  | h :: tl, needle => prefOf needle (h :: tl) || containsSub tl needle

/-- hay.toLowerCase().includes(needle.toLowerCase()). -/
def strIncludes (hay needle : String) : Bool :=
  containsSub (lowerChars hay) (lowerChars needle)

theorem containsSub_nil (hay : List Char) : containsSub hay [] = true := by
  cases hay <;> simp [containsSub, prefOf, List.isEmpty]

theorem strIncludes_empty (hay : String) : strIncludes hay "" = true := by
  rw [strIncludes, show lowerChars "" = [] from rfl]
  exact containsSub_nil _

/-- The value of the type filter control: the literal all or a concrete
transaction type. -/
inductive TypeFilter where
  | all
  | only (ty : TxType)
deriving DecidableEq

/-- The filters record of getFilteredTransactions; absent fields are none
(absent startDate/endDate/type behave as absent, and the empty search
string is falsy and behaves as absent). -/
structure TxFilter where
  startDate : Option Int := none
  endDate : Option Int := none
  type : Option TypeFilter := none
  search : Option String := none
deriving DecidableEq

/-- Embedded from the predicate inside getFilteredTransactions: early
return false on a date below startDate, above endDate, or a type mismatch
when the type filter is present and not all; when a non-empty search is
present the result is the case-insensitive substring match against
client_supplier or description; otherwise keep. -/
def keepTx (f : TxFilter) (t : Tx) : Bool :=
  if (match f.startDate with | some s => decide (t.date < s) | none => false) then false
  else if (match f.endDate with | some e => decide (e < t.date) | none => false) then false
  else if (match f.type with
           | some (TypeFilter.only ty) => decide (t.type ≠ ty)
           | _ => false) then false
  else match f.search with
    | some s =>
        if s = "" then true
        else strIncludes t.client_supplier s || strIncludes t.description s
    | none => true

/-- transactions.filter of the hook. -/
def getFilteredTransactions (ts : List Tx) (f : TxFilter) : List Tx :=
  ts.filter (keepTx f)

theorem guard_false (c x : Bool) : (if c = true then false else x) = (!c && x) := by
  cases c <;> simp

theorem keepTx_eq_and (f : TxFilter) (t : Tx) :
    keepTx f t =
      ((match f.startDate with | some s => decide (s ≤ t.date) | none => true) &&
       ((match f.endDate with | some e => decide (t.date ≤ e) | none => true) &&
        ((match f.type with
          | some (TypeFilter.only ty) => decide (t.type = ty)
          | _ => true) &&
         (match f.search with
          | some s =>
              if s = "" then true
              else strIncludes t.client_supplier s || strIncludes t.description s
          | none => true)))) := by
  rw [keepTx, guard_false, guard_false, guard_false]
  congr 1
  · rcases f.startDate with _ | s₀
    · rfl
    · rw [← decide_not, decide_eq_decide]
      exact Int.not_lt
  congr 1
  · rcases f.endDate with _ | e₀
    · rfl
    · rw [← decide_not, decide_eq_decide]
      exact Int.not_lt
  congr 1
  rcases f.type with _ | tf
  · rfl
  · cases tf with
    | all => rfl
    | only ty =>
        rw [← decide_not, decide_eq_decide]
        exact not_not

/-- C9: a transaction passes the filter exactly when its date respects the
inclusive bounds that are present, its type matches a present non-all type
filter, and, when a search string is present, the lowercased search occurs
in the lowercased client_supplier or description; the dimensions combine by
conjunction, and filtering a list keeps exactly the members that pass. -/
theorem claim_C9_filter_semantics (f : TxFilter) (t : Tx) :
    (keepTx f t = true ↔
      ((∀ s, f.startDate = some s → s ≤ t.date) ∧
       (∀ e, f.endDate = some e → t.date ≤ e) ∧
       (∀ ty, f.type = some (TypeFilter.only ty) → t.type = ty) ∧
       (∀ s, f.search = some s →
         (strIncludes t.client_supplier s = true ∨ strIncludes t.description s = true)))) ∧
    (∀ ts : List Tx, t ∈ getFilteredTransactions ts f ↔ t ∈ ts ∧ keepTx f t = true) := by
  constructor
  · rw [keepTx_eq_and]
    simp only [Bool.and_eq_true]
    constructor
    · rintro ⟨h1, h2, h3, h4⟩
      refine ⟨?_, ?_, ?_, ?_⟩
      · intro s hs
        rw [hs] at h1
        exact of_decide_eq_true h1
      · intro e he
        rw [he] at h2
        exact of_decide_eq_true h2
      · intro ty hty
        rw [hty] at h3
        exact of_decide_eq_true h3
      · intro s hs
        rw [hs] at h4
        by_cases hempty : s = ""
        · subst hempty
          exact Or.inl (strIncludes_empty t.client_supplier)
        · simp only [if_neg hempty] at h4
          exact (Bool.or_eq_true _ _).mp h4
    · rintro ⟨h1, h2, h3, h4⟩
      refine ⟨?_, ?_, ?_, ?_⟩
      · rcases hsd : f.startDate with _ | s₀
        · rfl
        · exact decide_eq_true (h1 s₀ hsd)
      · rcases hed : f.endDate with _ | e₀
        · rfl
        · exact decide_eq_true (h2 e₀ hed)
      · rcases hty : f.type with _ | tf
        · rfl
        · cases tf with
          | all => rfl
          | only ty => exact decide_eq_true (h3 ty hty)
      · rcases hse : f.search with _ | s
        · rfl
        · by_cases hempty : s = ""
          · simp [hempty]
          · simp only [if_neg hempty]
            exact (Bool.or_eq_true _ _).mpr (h4 s hse)
  · intro ts
    rw [getFilteredTransactions, List.mem_filter]

/-! ### Client-side partial update -/

/-- The Partial transaction handed to updateTransaction of the
useTransactions hook. -/
structure ClientChanges where
  date : Option Int := none
  type : Option TxType := none
  clientSupplier : Option String := none
  amount : Option ℚ := none
  description : Option String := none
  paymentMethod : Option PayMethod := none
deriving DecidableEq

/-- Embedded from the updates object built by updateTransaction:
date, type and paymentMethod are guarded by truthiness, but a present Date
object and the non-empty enum literals are always truthy, so presence
decides them; clientSupplier is a free string, so a present empty string is
falsy and the key is omitted; amount and description are compared against
undefined, so any present value is kept. -/
def buildUpdates (c : ClientChanges) : TxChanges :=
  { date := c.date
    type := c.type
    client_supplier :=
      match c.clientSupplier with
      | some s => if s = "" then none else some s
      | none => none
    amount := c.amount
    description := c.description
    payment_method := c.paymentMethod }

/-- The stored row after the client update round-trips through the
server-side SET application. -/
def clientUpdateTx (t : Tx) (c : ClientChanges) (now : Int) : Tx :=
  applyChanges t (buildUpdates c) now

/-- C10: in the client update, a supplied empty clientSupplier is dropped
and the field keeps its old value, while a non-empty one is applied; amount
and description are applied whenever present (so description can be
cleared to empty); every absent field keeps its previous value, identity
fields never change, and updated_at becomes the new timestamp. -/
theorem claim_C10_client_update_truthiness (t : Tx) (c : ClientChanges) (now : Int) :
    (c.clientSupplier = some "" →
      (clientUpdateTx t c now).client_supplier = t.client_supplier) ∧
    (∀ s, c.clientSupplier = some s → s ≠ "" →
      (clientUpdateTx t c now).client_supplier = s) ∧
    (c.clientSupplier = none →
      (clientUpdateTx t c now).client_supplier = t.client_supplier) ∧
    (∀ a, c.amount = some a → (clientUpdateTx t c now).amount = a) ∧
    (c.amount = none → (clientUpdateTx t c now).amount = t.amount) ∧
    (∀ d, c.description = some d → (clientUpdateTx t c now).description = d) ∧
    (c.description = none → (clientUpdateTx t c now).description = t.description) ∧
    (∀ d, c.date = some d → (clientUpdateTx t c now).date = d) ∧
    (c.date = none → (clientUpdateTx t c now).date = t.date) ∧
    (∀ ty, c.type = some ty → (clientUpdateTx t c now).type = ty) ∧
    (c.type = none → (clientUpdateTx t c now).type = t.type) ∧
    (∀ pm, c.paymentMethod = some pm → (clientUpdateTx t c now).payment_method = pm) ∧
    (c.paymentMethod = none → (clientUpdateTx t c now).payment_method = t.payment_method) ∧
    (clientUpdateTx t c now).id = t.id ∧
    (clientUpdateTx t c now).user_id = t.user_id ∧
    (clientUpdateTx t c now).created_at = t.created_at ∧
    (clientUpdateTx t c now).updated_at = now := by
  refine ⟨?_, ?_, ?_, ?_, ?_, ?_, ?_, ?_, ?_, ?_, ?_, ?_, ?_, rfl, rfl, rfl, rfl⟩
  · intro h
    simp [clientUpdateTx, buildUpdates, applyChanges, h]
  · intro s hs hne
    simp [clientUpdateTx, buildUpdates, applyChanges, hs, hne]
  · intro h
    simp [clientUpdateTx, buildUpdates, applyChanges, h]
  · intro a ha
    simp [clientUpdateTx, buildUpdates, applyChanges, ha]
  · intro h
    simp [clientUpdateTx, buildUpdates, applyChanges, h]
  · intro d hd
    simp [clientUpdateTx, buildUpdates, applyChanges, hd]
  · intro h
    simp [clientUpdateTx, buildUpdates, applyChanges, h]
  · intro d hd
    simp [clientUpdateTx, buildUpdates, applyChanges, hd]
  · intro h
    simp [clientUpdateTx, buildUpdates, applyChanges, h]
  · intro ty hty
    simp [clientUpdateTx, buildUpdates, applyChanges, hty]
  · intro h
    simp [clientUpdateTx, buildUpdates, applyChanges, h]
  · intro pm hpm
    simp [clientUpdateTx, buildUpdates, applyChanges, hpm]
  · intro h
    simp [clientUpdateTx, buildUpdates, applyChanges, h]

/-- Witness for C10: a payload with an empty clientSupplier, a cleared
description and a new amount keeps the old counterparty, clears the
description and stores the new amount. -/
theorem claim_C10_witness :
    (clientUpdateTx sampleExpense
      { clientSupplier := some "", amount := some 75, description := some "" } 500
      ).client_supplier = sampleExpense.client_supplier ∧
    (clientUpdateTx sampleExpense
      { clientSupplier := some "", amount := some 75, description := some "" } 500
      ).amount = 75 ∧
    (clientUpdateTx sampleExpense
      { clientSupplier := some "", amount := some 75, description := some "" } 500
      ).description = "" := by
  have h := claim_C10_client_update_truthiness sampleExpense
    { clientSupplier := some "", amount := some 75, description := some "" } 500
  exact ⟨h.1 rfl, h.2.2.2.1 75 rfl, h.2.2.2.2.2.1 "" rfl⟩

end Caixa
